import Mathlib

/-!
Verification of the keyword research platform core (`keyword_research.py`).

The Python module builds an in-memory store of mock keyword records and
exposes two operations over it: substring search and keyword analysis.
We embed the record type, the pure scoring arithmetic, the search and
analysis pipelines, and the random-value generation (parametrised by an
abstract random generator) and prove the behavioural contracts.
-/

/-- A keyword record, mirroring the Python dict with keys
`keyword, search_volume, difficulty, cpc, competition, trend, category`. -/
structure KeywordRecord where
  keyword : String
  search_volume : Nat
  difficulty : Nat
  cpc : Rat
  competition : String
  trend : String
  category : String
deriving DecidableEq

/-- Python-style round-half-to-even of a rational to the nearest integer. -/
def roundHalfEven (x : Rat) : Int :=
  if x - Int.floor x < 1/2 then Int.floor x
  else if 1/2 < x - Int.floor x then Int.floor x + 1
  else if Int.floor x % 2 = 0 then Int.floor x else Int.floor x + 1

/-- Python's `round(x, n)` for nonnegative `n`, modelled over the rationals. -/
def pyRound (n : Nat) (x : Rat) : Rat :=
  (roundHalfEven (x * (10 ^ n)) : Rat) / (10 ^ n)

/-- `KeywordResearcher._calculate_opportunity_score`:
`volume_score = min(search_volume / 1000, 50)`,
`difficulty_score = 100 - difficulty`,
`cpc_score = min(cpc * 5, 30)`,
returns `round((volume_score + difficulty_score + cpc_score) / 3, 1)`. -/
def calculate_opportunity_score (kw_data : KeywordRecord) : Rat :=
  let volume_score := min ((kw_data.search_volume : Rat) / 1000) 50
  let difficulty_score := (100 : Rat) - (kw_data.difficulty : Rat)
  let cpc_score := min (kw_data.cpc * 5) 30
  pyRound 1 ((volume_score + difficulty_score + cpc_score) / 3)

/-- Python's `str.lower()`, modelled character-wise. -/
def pyLower (s : String) : String := ⟨s.data.map Char.toLower⟩

/-- Does `needle` match at the head of `hay`? -/
def startsWithCh : List Char → List Char → Bool
  | [], _ => true
  | _ :: _, [] => false
  | n :: ns, h :: hs => n == h && startsWithCh ns hs

/-- Python's substring containment `needle in hay` on character lists. -/
def containsCh (needle : List Char) : List Char → Bool
  | [] => needle.isEmpty
  | h :: hs => startsWithCh needle (h :: hs) || containsCh needle hs

/-- Python's `needle in hay` on strings. -/
def strIn (needle hay : String) : Bool := containsCh needle.data hay.data

/-- Insert `x` below every earlier element whose key is `≥ key x`:
the insertion step of a stable descending insertion sort. -/
def insertDescBy {α : Type} (key : α → Nat) (x : α) : List α → List α
  | [] => [x]
  | y :: ys => if key y ≤ key x then x :: y :: ys else y :: insertDescBy key x ys

/-- Stable sort by `key` descending: the semantics of Python's stable
`list.sort(key=..., reverse=True)` / `sorted(..., reverse=True)`. -/
def sortDescBy {α : Type} (key : α → Nat) : List α → List α
  | [] => []
  | x :: xs => insertDescBy key x (sortDescBy key xs)

/-- `KeywordResearcher.search_keywords`: keep the records whose lowercased
keyword contains the lowercased seed, sort by `search_volume` descending
(stable), and truncate to `limit`. -/
def search_keywords (db : List KeywordRecord) (seed_keyword : String)
    (limit : Nat) : List KeywordRecord :=
  let results := db.filter (fun kw => strIn (pyLower seed_keyword) (pyLower kw.keyword))
  (sortDescBy (fun x => x.search_volume) results).take limit

/-- The `POST /search` route handler: reads `seed_keyword` from the JSON
body (defaulting to the empty string) and calls `search_keywords` with its
default limit of 50. -/
def search_keywords_route (db : List KeywordRecord)
    (body_seed : Option String) : List KeywordRecord :=
  search_keywords db (body_seed.getD ("")) 50

/-- A concrete record used to instantiate the search theorems. -/
def recAlpha : KeywordRecord :=
  { keyword := "alpha beta", search_volume := 10, difficulty := 4, cpc := 3,
    competition := "Low", trend := "Rising", category := "general" }

/-- A second concrete record used to instantiate the search theorems. -/
def recGamma : KeywordRecord :=
  { keyword := "gamma", search_volume := 5, difficulty := 7, cpc := 2,
    competition := "High", trend := "Stable", category := "general" }

/-- A two-record store used to instantiate the search theorems. -/
def dbSmall : List KeywordRecord := [recAlpha, recGamma]

/-- A 160-record store used to instantiate the full-store size theorems. -/
def dbBig : List KeywordRecord := List.replicate 160 recGamma

/-- One step of Python's `str.title()`: `prev` records whether the
previous character was alphabetic. -/
def titleAux : Bool → List Char → List Char
  | _, [] => []
  | prev, c :: cs =>
    if c.isAlpha then
      (if prev then c.toLower else c.toUpper) :: titleAux true cs
    else
      c :: titleAux false cs

/-- Python's `str.title()`: the first letter of each alphabetic run is
uppercased and the remaining letters of the run are lowercased. -/
def pyTitle (s : String) : String := ⟨titleAux false s.data⟩

/-- `KeywordResearcher._get_content_suggestions`: the five templated
titles built from the title-cased keyword. -/
def get_content_suggestions (keyword : String) : List String :=
  [("Ultimate Guide to ") ++ pyTitle keyword,
   ("Top 10 ") ++ pyTitle keyword ++ (" Strategies"),
   ("How to Master ") ++ pyTitle keyword,
   pyTitle keyword ++ (": Best Practices"),
   ("Common ") ++ pyTitle keyword ++ (" Mistakes to Avoid")]

/-- Accumulator pass of Python's whitespace `str.split()`: `acc` holds the
reversed characters of the token being read. -/
def pySplitAux : List Char → List Char → List String
  | acc, [] => if acc.isEmpty then [] else [⟨acc.reverse⟩]
  | acc, c :: cs =>
    if c.isWhitespace then
      if acc.isEmpty then pySplitAux [] cs
      else ⟨acc.reverse⟩ :: pySplitAux [] cs
    else pySplitAux (c :: acc) cs

/-- Python's `str.split()` with no argument: split on whitespace runs,
dropping empty pieces. -/
def pySplitWs (s : String) : List String := pySplitAux [] s.data

/-- `KeywordResearcher._get_related_keywords`: store records whose keyword
contains (case-sensitively) some whitespace token of the input and differs
from the input, stably sorted by `search_volume` descending, first 10. -/
def get_related_keywords (db : List KeywordRecord) (keyword : String) :
    List KeywordRecord :=
  let words := pySplitWs keyword
  (sortDescBy (fun x => x.search_volume)
    (db.filter (fun kw =>
      (words.any (fun w => strIn w kw.keyword)) && (kw.keyword != keyword)))).take 10

/-- An abstract random source: `randint t lo hi` models the value Python's
`random.randint(lo, hi)` returns at call `t` of the computation,
`randuniform` models `random.uniform`, and `randindex t n` models drawing
an index below `n` (`random.choice` and the draws of `random.sample`). -/
structure RandGen where
  randint : Nat → Nat → Nat → Nat
  randuniform : Nat → Rat → Rat → Rat
  randindex : Nat → Nat → Nat

/-- The contract Python's `random` module guarantees for every call:
`randint`/`uniform` return values within the requested bounds and index
draws are in range. -/
def RandGen.Valid (g : RandGen) : Prop :=
  (∀ t lo hi, lo ≤ hi → lo ≤ g.randint t lo hi ∧ g.randint t lo hi ≤ hi) ∧
  (∀ t (lo hi : Rat), lo ≤ hi →
    lo ≤ g.randuniform t lo hi ∧ g.randuniform t lo hi ≤ hi) ∧
  (∀ t n, 0 < n → g.randindex t n < n)

/-- The random source that always draws the lower end. -/
def loGen : RandGen :=
  { randint := fun _ lo _ => lo
    randuniform := fun _ lo _ => lo
    randindex := fun _ _ => 0 }

/-- The random source that always draws the upper end. -/
def hiGen : RandGen :=
  { randint := fun _ _ hi => hi
    randuniform := fun _ _ hi => hi
    randindex := fun _ n => n - 1 }

/-- Python's `random.choice` over a string list, drawing its index from
the random source. -/
def pyChoice (g : RandGen) (t : Nat) (l : List String) : String :=
  l.getD (g.randindex t l.length) ("")

/-- Python's `random.sample(l, k)`: `k` successive draws without
replacement, each removing the drawn element. -/
def pySample (g : RandGen) (t : Nat) (l : List String) : Nat → List String
  | 0 => []
  | Nat.succ k =>
    l.getD (g.randindex t l.length) ("") ::
      pySample g (t + 1) (l.eraseIdx (g.randindex t l.length)) k

/-- The 16 base topics of `_generate_mock_keywords`. -/
def base_keywords : List String :=
  ["digital marketing", "seo optimization", "content marketing", "social media",
   "web development", "python programming", "data science", "machine learning",
   "artificial intelligence", "cloud computing", "cybersecurity", "blockchain",
   "e-commerce", "online business", "startup", "entrepreneurship"]

/-- The 10 keyword variations generated for a base topic. -/
def variations (base : String) : List String :=
  [base ++ (" tools"), base ++ (" strategy"), base ++ (" tips"),
   ("best ") ++ base, base ++ (" guide"), base ++ (" course"),
   base ++ (" services"), base ++ (" agency"), ("how to ") ++ base,
   base ++ (" tutorial")]

/-- One generated record of the mock store; `t` is the tick of the
record's first random call. -/
def mkMockRecord (g : RandGen) (t : Nat) (base variation : String) :
    KeywordRecord :=
  { keyword := variation
    search_volume := g.randint t 100 50000
    difficulty := g.randint (t + 1) 1 100
    cpc := pyRound 2 (g.randuniform (t + 2) (1/2) 15)
    competition := pyChoice g (t + 3) ["Low", "Medium", "High"]
    trend := pyChoice g (t + 4) ["Rising", "Stable", "Declining"]
    category := base.replace (" ") ("_") }

/-- `KeywordResearcher._generate_mock_keywords`: 16 base topics times 10
variations, each record drawing five fresh random values. -/
def generate_mock_keywords (g : RandGen) : List KeywordRecord :=
  (base_keywords.enum).flatMap (fun bi =>
    ((variations bi.2).enum).map (fun vi =>
      mkMockRecord g ((bi.1 * 10 + vi.1) * 5) bi.2 vi.2))

/-- The 12 month abbreviations, in calendar order. -/
def months : List String :=
  ["Jan", "Feb", "Mar", "Apr", "May", "Jun",
   "Jul", "Aug", "Sep", "Oct", "Nov", "Dec"]

/-- An entry of the seasonal trend series. -/
structure SeasonalEntry where
  month : String
  volume : Nat
deriving DecidableEq

/-- `KeywordResearcher._generate_seasonal_data`: one random volume in
`[70, 130]` per month, months kept in calendar order; `t` is the tick of
the first draw. -/
def generate_seasonal_data (g : RandGen) (t : Nat) : List SeasonalEntry :=
  (months.enum).map (fun mi =>
    { month := mi.2, volume := g.randint (t + mi.1) 70 130 })

/-- The fixed SERP feature set of `_get_serp_features`. -/
def features : List String :=
  ["Featured Snippets", "People Also Ask", "Local Pack",
   "Images", "Videos", "Shopping", "News"]

/-- `KeywordResearcher._get_serp_features`: a `random.sample` of size
`randint(2, 5)` from the fixed feature list. -/
def get_serp_features (g : RandGen) (t : Nat) : List String :=
  pySample g (t + 1) features (g.randint t 2 5)

/-- The analysis result: the spread of the base record's fields plus the
derived analysis fields, as one composite value. -/
structure AnalysisResult where
  record : KeywordRecord
  opportunity_score : Rat
  related_keywords : List KeywordRecord
  seasonal_trends : List SeasonalEntry
  serp_features : List String
  content_suggestions : List String

/-- `KeywordResearcher.analyze_keyword`: resolve the base record by exact
case-insensitive match, synthesize one if absent (ticks 0-4), then attach
the derived fields (seasonal draws from tick 10, SERP draws from tick
30). -/
def analyze_keyword (g : RandGen) (db : List KeywordRecord)
    (keyword : String) : AnalysisResult :=
  let kw_data := match db.find? (fun kw => pyLower kw.keyword == pyLower keyword) with
    | some kw => kw
    | none =>
      { keyword := keyword
        search_volume := g.randint 0 100 10000
        difficulty := g.randint 1 1 100
        cpc := pyRound 2 (g.randuniform 2 (1/2) 10)
        competition := pyChoice g 3 ["Low", "Medium", "High"]
        trend := pyChoice g 4 ["Rising", "Stable", "Declining"]
        category := "general" }
  { record := kw_data
    opportunity_score := calculate_opportunity_score kw_data
    related_keywords := get_related_keywords db keyword
    seasonal_trends := generate_seasonal_data g 10
    serp_features := get_serp_features g 30
    content_suggestions := get_content_suggestions keyword }

/-- The researcher object's state: the shared keyword store
`self.keyword_database`. -/
structure ResearcherState where
  keyword_database : List KeywordRecord

/-- `search_keywords` as a state transformer on the researcher object: the
method reads the store and assigns nothing, so it returns the store it
leaves behind together with its value. -/
def search_keywords_st (seed_keyword : String) (limit : Nat)
    (s : ResearcherState) : List KeywordRecord × ResearcherState :=
  (search_keywords s.keyword_database seed_keyword limit, s)

/-- `analyze_keyword` as a state transformer on the researcher object. -/
def analyze_keyword_st (g : RandGen) (keyword : String)
    (s : ResearcherState) : AnalysisResult × ResearcherState :=
  (analyze_keyword g s.keyword_database keyword, s)

/-- C1: the opportunity score is a pure deterministic function of
`search_volume`, `difficulty` and `cpc`, computed by the stated formula;
at `search_volume = 5000, difficulty = 40, cpc = 3.0` it equals `26.7`;
the volume score never exceeds 50; and the cpc score equals 30 whenever
`cpc ≥ 6.0`. -/
theorem opportunity_score_correct :
    (∀ kw : KeywordRecord, calculate_opportunity_score kw =
      pyRound 1 ((min ((kw.search_volume : Rat) / 1000) 50 +
        ((100 : Rat) - (kw.difficulty : Rat)) + min (kw.cpc * 5) 30) / 3)) ∧
    (∀ a b : KeywordRecord, a.search_volume = b.search_volume →
      a.difficulty = b.difficulty → a.cpc = b.cpc →
      calculate_opportunity_score a = calculate_opportunity_score b) ∧
    (∀ kw : KeywordRecord, kw.search_volume = 5000 → kw.difficulty = 40 →
      kw.cpc = 3 → calculate_opportunity_score kw = 267/10) ∧
    (∀ kw : KeywordRecord, min ((kw.search_volume : Rat) / 1000) 50 ≤ 50) ∧
    (∀ kw : KeywordRecord, 6 ≤ kw.cpc → min (kw.cpc * 5) 30 = 30) := by
  refine ⟨fun kw => rfl, ?_, ?_, fun kw => min_le_right _ _, ?_⟩
  · intro a b h1 h2 h3
    simp only [calculate_opportunity_score, h1, h2, h3]
  · intro kw h1 h2 h3
    simp only [calculate_opportunity_score, h1, h2, h3]
    norm_num [pyRound, roundHalfEven]
  · intro kw h
    have : (30 : Rat) ≤ kw.cpc * 5 := by nlinarith
    simpa [min_eq_right] using min_eq_right this

/-- Concrete instantiation of `opportunity_score_correct`: evaluates the
score at the spec's example record and the cpc cap at `cpc = 7`. -/
theorem opportunity_score_correct_witness :
    calculate_opportunity_score
      { keyword := "seo", search_volume := 5000, difficulty := 40, cpc := 3,
        competition := "Low", trend := "Rising", category := "general" } = 267/10 ∧
    min ((7 : Rat) * 5) 30 = 30 := by
  constructor
  · exact opportunity_score_correct.2.2.1 _ rfl rfl rfl
  · exact opportunity_score_correct.2.2.2.2
      { keyword := "k", search_volume := 1, difficulty := 1, cpc := 7,
        competition := "Low", trend := "Rising", category := "general" }
      (by norm_num)

/-- Inserting with `insertDescBy` is a permutation of consing. -/
theorem insertDescBy_perm {α : Type} (key : α → Nat) (x : α) (l : List α) :
    List.Perm (insertDescBy key x l) (x :: l) := by
  induction l with
  | nil => exact List.Perm.refl _
  | cons y ys ih =>
    simp only [insertDescBy]
    split
    · exact List.Perm.refl _
    · exact (List.Perm.cons y ih).trans (List.Perm.swap x y ys)

/-- `sortDescBy` permutes its input. -/
theorem sortDescBy_perm {α : Type} (key : α → Nat) (l : List α) :
    List.Perm (sortDescBy key l) l := by
  induction l with
  | nil => exact List.Perm.refl _
  | cons x xs ih =>
    exact (insertDescBy_perm key x _).trans (List.Perm.cons x ih)

/-- `insertDescBy` preserves descending sortedness by `key`. -/
theorem insertDescBy_sorted {α : Type} (key : α → Nat) (x : α) (l : List α)
    (h : l.Pairwise (fun a b => key b ≤ key a)) :
    (insertDescBy key x l).Pairwise (fun a b => key b ≤ key a) := by
  induction l with
  | nil => simp [insertDescBy]
  | cons y ys ih =>
    rw [List.pairwise_cons] at h
    by_cases hxy : key y ≤ key x
    · simp only [insertDescBy, if_pos hxy]
      refine List.pairwise_cons.mpr ⟨?_, List.pairwise_cons.mpr h⟩
      intro z hz
      rcases List.mem_cons.mp hz with rfl | hz'
      · exact hxy
      · exact le_trans (h.1 z hz') hxy
    · simp only [insertDescBy, if_neg hxy]
      refine List.pairwise_cons.mpr ⟨?_, ih h.2⟩
      intro z hz
      rcases List.mem_cons.mp ((insertDescBy_perm key x ys).mem_iff.mp hz) with rfl | hz'
      · omega
      · exact h.1 z hz'

/-- The output of `sortDescBy` is sorted descending by `key`. -/
theorem sortDescBy_sorted {α : Type} (key : α → Nat) (l : List α) :
    (sortDescBy key l).Pairwise (fun a b => key b ≤ key a) := by
  induction l with
  | nil => exact List.Pairwise.nil
  | cons x xs ih => exact insertDescBy_sorted key x _ ih

/-- Filtering on the inserted element's own key value prepends it. -/
theorem insertDescBy_filter_eq {α : Type} (key : α → Nat) (x : α) (v : Nat)
    (hx : key x = v) (l : List α) :
    (insertDescBy key x l).filter (fun a => key a == v) =
      x :: l.filter (fun a => key a == v) := by
  induction l with
  | nil => simp [insertDescBy, List.filter_cons, hx]
  | cons y ys ih =>
    by_cases hxy : key y ≤ key x
    · rw [insertDescBy, if_pos hxy, List.filter_cons, List.filter_cons]
      simp [hx]
    · have hy : (key y == v) = false := by
        simp only [beq_eq_false_iff_ne]
        omega
      rw [insertDescBy, if_neg hxy, List.filter_cons, hy, List.filter_cons, hy]
      simpa using ih

/-- Filtering on another key value ignores the inserted element. -/
theorem insertDescBy_filter_ne {α : Type} (key : α → Nat) (x : α) (v : Nat)
    (hx : ¬ key x = v) (l : List α) :
    (insertDescBy key x l).filter (fun a => key a == v) =
      l.filter (fun a => key a == v) := by
  induction l with
  | nil => simp [insertDescBy, List.filter_cons, hx]
  | cons y ys ih =>
    by_cases hxy : key y ≤ key x
    · rw [insertDescBy, if_pos hxy, List.filter_cons, List.filter_cons]
      simp [hx]
    · rw [insertDescBy, if_neg hxy, List.filter_cons, List.filter_cons]
      rw [ih]

/-- Stability of `sortDescBy`: the records carrying any single key value
appear in the output in their input order. -/
theorem sortDescBy_filter {α : Type} (key : α → Nat) (v : Nat) (l : List α) :
    (sortDescBy key l).filter (fun a => key a == v) =
      l.filter (fun a => key a == v) := by
  induction l with
  | nil => rfl
  | cons x xs ih =>
    by_cases hx : key x = v
    · rw [sortDescBy, insertDescBy_filter_eq key x v hx, ih, List.filter_cons]
      simp [hx]
    · rw [sortDescBy, insertDescBy_filter_ne key x v hx, ih, List.filter_cons]
      simp [hx]

/-- The empty character list is contained in every character list. -/
theorem containsCh_nil (hay : List Char) : containsCh [] hay = true := by
  cases hay with
  | nil => rfl
  | cons h hs => simp [containsCh, startsWithCh]

/-- The lowercased empty seed is contained in every string. -/
theorem strIn_empty_left (s : String) : strIn (pyLower ("")) s = true :=
  containsCh_nil _

/-- The search result never exceeds the requested limit. -/
theorem search_keywords_length_le (db : List KeywordRecord) (seed : String)
    (limit : Nat) : (search_keywords db seed limit).length ≤ limit := by
  simp only [search_keywords, List.length_take]
  exact Nat.min_le_left limit _

/-- On a 160-record store the empty seed matches every record, so the
search returns `min 160 limit` records. -/
theorem search_keywords_empty_seed (db : List KeywordRecord) (limit : Nat)
    (h160 : db.length = 160) :
    (search_keywords db ("") limit).length = min 160 limit := by
  have hfil : db.filter
      (fun kw => strIn (pyLower ("")) (pyLower kw.keyword)) = db :=
    List.filter_eq_self.mpr (fun a _ => strIn_empty_left _)
  have hlen := (sortDescBy_perm (fun x : KeywordRecord => x.search_volume) db).length_eq
  simp only [search_keywords, hfil, List.length_take, hlen, h160]
  omega

/-- C2: `search_keywords` returns exactly the records whose lowercased
keyword contains the lowercased seed, stably sorted by `search_volume`
descending and truncated to `limit`; each returned record comes from the
store and matches; the result is sorted descending, has length at most
`limit`, ties keep store order, and the empty seed on a 160-record store
yields `min 160 limit` records. -/
theorem search_keywords_correct :
    ∀ (db : List KeywordRecord) (seed : String) (limit : Nat),
    (search_keywords db seed limit =
      (sortDescBy (fun x => x.search_volume)
        (db.filter (fun kw => strIn (pyLower seed) (pyLower kw.keyword)))).take limit) ∧
    (∀ r ∈ search_keywords db seed limit,
      r ∈ db ∧ strIn (pyLower seed) (pyLower r.keyword) = true) ∧
    List.Pairwise (fun a b => b.search_volume ≤ a.search_volume)
      (search_keywords db seed limit) ∧
    (search_keywords db seed limit).length ≤ limit ∧
    (∀ v : Nat,
      (sortDescBy (fun x => x.search_volume)
        (db.filter (fun kw => strIn (pyLower seed) (pyLower kw.keyword)))).filter
          (fun a => a.search_volume == v) =
      (db.filter (fun kw => strIn (pyLower seed) (pyLower kw.keyword))).filter
          (fun a => a.search_volume == v)) ∧
    (db.length = 160 → (search_keywords db ("") limit).length = min 160 limit) := by
  intro db seed limit
  refine ⟨rfl, ?_, ?_, ?_, fun v => sortDescBy_filter _ v _, ?_⟩
  · intro r hr
    have h2 := (sortDescBy_perm (fun x : KeywordRecord => x.search_volume)
      _).mem_iff.mp (List.mem_of_mem_take hr)
    exact List.mem_filter.mp h2
  · exact List.Pairwise.sublist (List.take_sublist _ _)
      (sortDescBy_sorted (fun x : KeywordRecord => x.search_volume) _)
  · exact search_keywords_length_le db seed limit
  · exact search_keywords_empty_seed db limit

/-- Concrete instantiation of `search_keywords_correct`: a matching record
of a two-record store, and the empty seed on a 160-record store. -/
theorem search_keywords_correct_witness :
    (recAlpha ∈ dbSmall ∧ strIn (pyLower ("alp")) (pyLower recAlpha.keyword) = true) ∧
    (search_keywords dbBig ("") 3).length = min 160 3 := by
  constructor
  · exact (search_keywords_correct dbSmall ("alp") 5).2.1 recAlpha (by decide)
  · exact (search_keywords_correct dbBig ("x") 3).2.2.2.2.2
      (by simp [dbBig])

/-- C3 counterexample: for the input "seo tips" the suggestions do not
contain "SEO Tips: Best Practices" — Python's `title()` produces
"Seo Tips", capitalizing only the first letter of each word and
lowercasing the rest, so it cannot keep "SEO" fully uppercased. -/
theorem content_suggestions_seo_counterexample :
    ("SEO Tips: Best Practices") ∉ get_content_suggestions ("seo tips") := by
  decide

/-- C3 (amended): for every keyword the suggestions are exactly the five
templated strings built from the title-cased keyword, where title-casing
uppercases the first letter of each alphabetic run and lowercases the
rest; in particular for "seo tips" the titled keyword is "Seo Tips" and
the suggestions include exactly "Seo Tips: Best Practices". -/
theorem content_suggestions_correct :
    (∀ keyword : String, get_content_suggestions keyword =
      [("Ultimate Guide to ") ++ pyTitle keyword,
       ("Top 10 ") ++ pyTitle keyword ++ (" Strategies"),
       ("How to Master ") ++ pyTitle keyword,
       pyTitle keyword ++ (": Best Practices"),
       ("Common ") ++ pyTitle keyword ++ (" Mistakes to Avoid")]) ∧
    (∀ keyword : String, (get_content_suggestions keyword).length = 5) ∧
    pyTitle ("seo tips") = ("Seo Tips") ∧
    ("Seo Tips: Best Practices") ∈ get_content_suggestions ("seo tips") ∧
    (get_content_suggestions ("seo tips")).count ("Seo Tips: Best Practices") = 1 := by
  refine ⟨fun _ => rfl, fun _ => rfl, by decide, by decide, by decide⟩

/-- The lower-end random source satisfies the `random` module contract. -/
theorem loGen_valid : loGen.Valid := by
  refine ⟨fun t lo hi h => ⟨le_refl _, h⟩, fun t lo hi h => ⟨le_refl _, h⟩, ?_⟩
  intro t n hn
  simpa [loGen] using hn

/-- The upper-end random source satisfies the `random` module contract. -/
theorem hiGen_valid : hiGen.Valid := by
  refine ⟨fun t lo hi h => ⟨h, le_refl _⟩, fun t lo hi h => ⟨h, le_refl _⟩, ?_⟩
  intro t n hn
  simp only [hiGen]
  omega

/-- Round-half-to-even lies between the floor and the ceiling. -/
theorem roundHalfEven_bounds (x : Rat) :
    Int.floor x ≤ roundHalfEven x ∧ roundHalfEven x ≤ Int.ceil x := by
  have hfc : Int.floor x ≤ Int.ceil x := Int.floor_le_ceil x
  unfold roundHalfEven
  by_cases h1 : x - Int.floor x < 1/2
  · simp only [if_pos h1]
    exact ⟨le_refl _, hfc⟩
  · have hx : (Int.floor x : Rat) < x := by
      have hfl : (Int.floor x : Rat) ≤ x := Int.floor_le x
      push_neg at h1
      linarith
    have hc : Int.floor x + 1 ≤ Int.ceil x :=
      Int.add_one_le_iff.mpr (Int.lt_ceil.mpr hx)
    simp only [if_neg h1]
    by_cases h2 : 1/2 < x - Int.floor x
    · simp only [if_pos h2]
      exact ⟨by omega, hc⟩
    · simp only [if_neg h2]
      by_cases h3 : Int.floor x % 2 = 0
      · simp only [if_pos h3]
        exact ⟨le_refl _, hfc⟩
      · simp only [if_neg h3]
        exact ⟨by omega, hc⟩

/-- `pyRound` keeps a value between any integer bounds on `x * 10 ^ n`. -/
theorem pyRound_bounds (n : Nat) (x : Rat) (a b : Int)
    (ha : (a : Rat) ≤ x * 10 ^ n) (hb : x * 10 ^ n ≤ (b : Rat)) :
    (a : Rat) / 10 ^ n ≤ pyRound n x ∧ pyRound n x ≤ (b : Rat) / 10 ^ n := by
  obtain ⟨h1, h2⟩ := roundHalfEven_bounds (x * 10 ^ n)
  have hA : a ≤ roundHalfEven (x * 10 ^ n) := le_trans (Int.le_floor.mpr ha) h1
  have hB : roundHalfEven (x * 10 ^ n) ≤ b := le_trans h2 (Int.ceil_le.mpr hb)
  unfold pyRound
  constructor
  · have hA' : (a : Rat) ≤ ((roundHalfEven (x * 10 ^ n) : Int) : Rat) := by
      exact_mod_cast hA
    gcongr
  · have hB' : ((roundHalfEven (x * 10 ^ n) : Int) : Rat) ≤ (b : Rat) := by
      exact_mod_cast hB
    gcongr

/-- A value rounded to two decimal places times 100 is an integer. -/
theorem pyRound_two_mul_den (x : Rat) : (pyRound 2 x * 100).den = 1 := by
  have h : pyRound 2 x * 100 = ((roundHalfEven (x * 10 ^ 2) : Int) : Rat) := by
    unfold pyRound
    rw [show ((10 : Rat) ^ 2) = 100 by norm_num]
    exact div_mul_cancel₀ _ (by norm_num)
  rw [h, Rat.den_intCast]

/-- A `random.choice` draw from a nonempty list is an element of it. -/
theorem pyChoice_mem (g : RandGen) (hg : g.Valid) (t : Nat) (l : List String)
    (hl : l ≠ []) : pyChoice g t l ∈ l := by
  have hi := hg.2.2 t l.length (List.length_pos.mpr hl)
  unfold pyChoice
  rw [List.getD_eq_getElem l ("") hi]
  exact List.getElem_mem hi

/-- The second component of an `enumFrom` member is a member. -/
theorem snd_mem_of_mem_enumFrom {α : Type} (p : Nat × α) :
    ∀ (l : List α) (n : Nat), p ∈ l.enumFrom n → p.2 ∈ l := by
  intro l
  induction l with
  | nil => intro n hp; simp [List.enumFrom] at hp
  | cons x xs ih =>
    intro n hp
    rw [List.enumFrom_cons] at hp
    rcases List.mem_cons.mp hp with heq | h
    · rw [heq]
      exact List.mem_cons_self _ _
    · exact List.mem_cons_of_mem _ (ih _ h)

/-- In a duplicate-free list, the element at `i` does not survive the
removal of index `i`. -/
theorem getElem_not_mem_eraseIdx {α : Type} :
    ∀ (l : List α) (i : Nat) (h : i < l.length),
      l.Nodup → l[i] ∉ l.eraseIdx i := by
  intro l
  induction l with
  | nil => intro i h; simp at h
  | cons a as ih =>
    intro i h hnd
    rw [List.nodup_cons] at hnd
    cases i with
    | zero => simpa using hnd.1
    | succ j =>
      have hj : j < as.length := by simpa using h
      simp only [List.eraseIdx_cons_succ, List.getElem_cons_succ]
      rw [List.mem_cons]
      push_neg
      constructor
      · intro heq
        exact hnd.1 (heq ▸ List.getElem_mem hj)
      · exact ih j hj hnd.2

/-- A `random.sample` always returns exactly `k` draws. -/
theorem pySample_length (g : RandGen) (k : Nat) :
    ∀ (t : Nat) (l : List String), (pySample g t l k).length = k := by
  induction k with
  | zero => intro t l; rfl
  | succ k ih =>
    intro t l
    simp [pySample, ih]

/-- A `random.sample` from a long-enough duplicate-free list draws only
members and never repeats one. -/
theorem pySample_mem_nodup (g : RandGen) (hg : g.Valid) (k : Nat) :
    ∀ (t : Nat) (l : List String), k ≤ l.length → l.Nodup →
      (∀ x ∈ pySample g t l k, x ∈ l) ∧ (pySample g t l k).Nodup := by
  induction k with
  | zero =>
    intro t l _ _
    exact ⟨by simp [pySample], by simp [pySample]⟩
  | succ k ih =>
    intro t l hk hnd
    have hn : 0 < l.length := by omega
    have hi := hg.2.2 t l.length hn
    have hlen : (l.eraseIdx (g.randindex t l.length)).length = l.length - 1 :=
      List.length_eraseIdx_of_lt hi
    have hk' : k ≤ (l.eraseIdx (g.randindex t l.length)).length := by omega
    have hnd' : (l.eraseIdx (g.randindex t l.length)).Nodup :=
      List.Nodup.sublist (List.eraseIdx_sublist l _) hnd
    obtain ⟨hmem, hnodup⟩ := ih (t + 1) (l.eraseIdx (g.randindex t l.length)) hk' hnd'
    have hgetD : l.getD (g.randindex t l.length) ("") = l[g.randindex t l.length] :=
      List.getD_eq_getElem l ("") hi
    constructor
    · intro x hx
      rw [pySample] at hx
      rcases List.mem_cons.mp hx with rfl | hx'
      · rw [hgetD]
        exact List.getElem_mem hi
      · exact (List.eraseIdx_sublist l _).subset (hmem x hx')
    · rw [pySample]
      refine List.nodup_cons.mpr ⟨?_, hnodup⟩
      intro hmem2
      rw [hgetD] at hmem2
      exact getElem_not_mem_eraseIdx l _ hi hnd (hmem _ hmem2)

/-- Appending a string with nonempty data is nonempty. -/
theorem append_ne_empty_right (p q : String) (hq : q.data ≠ []) :
    p ++ q ≠ ("") := by
  intro h
  have hd := congrArg String.data h
  rw [String.data_append] at hd
  rw [show String.data ("") = [] from rfl] at hd
  exact hq (List.append_eq_nil.mp hd).2

/-- Prepending a string with nonempty data is nonempty. -/
theorem append_ne_empty_left (p q : String) (hp : p.data ≠ []) :
    p ++ q ≠ ("") := by
  intro h
  have hd := congrArg String.data h
  rw [String.data_append] at hd
  rw [show String.data ("") = [] from rfl] at hd
  exact hp (List.append_eq_nil.mp hd).1

/-- Every generated keyword variation is a nonempty string. -/
theorem variations_ne_empty (b : String) : ∀ v ∈ variations b, v ≠ ("") := by
  intro v hv
  simp only [variations, List.mem_cons, List.not_mem_nil, or_false] at hv
  rcases hv with rfl | rfl | rfl | rfl | rfl | rfl | rfl | rfl | rfl | rfl
  · exact append_ne_empty_right _ _ (by decide)
  · exact append_ne_empty_right _ _ (by decide)
  · exact append_ne_empty_right _ _ (by decide)
  · exact append_ne_empty_left _ _ (by decide)
  · exact append_ne_empty_right _ _ (by decide)
  · exact append_ne_empty_right _ _ (by decide)
  · exact append_ne_empty_right _ _ (by decide)
  · exact append_ne_empty_right _ _ (by decide)
  · exact append_ne_empty_left _ _ (by decide)
  · exact append_ne_empty_right _ _ (by decide)

/-- Length of a `flatMap` whose pieces all have the same length. -/
theorem length_flatMap_const {α β : Type} (l : List α) (f : α → List β)
    (c : Nat) (h : ∀ a ∈ l, (f a).length = c) :
    (l.flatMap f).length = l.length * c := by
  induction l with
  | nil => simp
  | cons x xs ih =>
    rw [List.flatMap_cons, List.length_append, h x (List.mem_cons_self x xs),
      ih (fun a ha => h a (List.mem_cons_of_mem _ ha)), List.length_cons]
    ring

/-- C6: the store built at startup has exactly 160 records (16 base topics
times 10 variations), and every record has a nonempty keyword,
`search_volume` in `[100, 50000]`, `difficulty` in `[1, 100]`, `cpc` in
`[0.5, 15.0]` with at most two decimal digits, competition and trend from
their fixed sets, and category equal to a base topic with spaces replaced
by underscores. -/
theorem generate_mock_keywords_correct :
    ∀ g : RandGen, g.Valid →
    (generate_mock_keywords g).length = 160 ∧
    ∀ r ∈ generate_mock_keywords g,
      r.keyword ≠ ("") ∧
      (100 ≤ r.search_volume ∧ r.search_volume ≤ 50000) ∧
      (1 ≤ r.difficulty ∧ r.difficulty ≤ 100) ∧
      (1/2 ≤ r.cpc ∧ r.cpc ≤ 15) ∧
      (r.cpc * 100).den = 1 ∧
      r.competition ∈ (["Low", "Medium", "High"] : List String) ∧
      r.trend ∈ (["Rising", "Stable", "Declining"] : List String) ∧
      ∃ b ∈ base_keywords, r.category = b.replace (" ") ("_") := by
  intro g hg
  constructor
  · rw [generate_mock_keywords, length_flatMap_const _ _ 10]
    · rfl
    · intro bi _
      rw [List.length_map, List.enum_eq_enumFrom, List.enumFrom_length]
      rfl
  · intro r hr
    simp only [generate_mock_keywords, List.mem_flatMap, List.mem_map] at hr
    obtain ⟨bi, hbi, vi, hvi, rfl⟩ := hr
    refine ⟨?_, ?_, ?_, ?_, ?_, ?_, ?_, ?_⟩
    · exact variations_ne_empty bi.2 vi.2
        (snd_mem_of_mem_enumFrom vi _ _ hvi)
    · exact hg.1 _ 100 50000 (by norm_num)
    · exact hg.1 _ 1 100 (by norm_num)
    · have hu := hg.2.1 ((bi.1 * 10 + vi.1) * 5 + 2) (1/2) 15 (by norm_num)
      have hb := pyRound_bounds 2 (g.randuniform ((bi.1 * 10 + vi.1) * 5 + 2) (1/2) 15)
        50 1500 (by push_cast; nlinarith [hu.1]) (by push_cast; nlinarith [hu.2])
      constructor
      · have h1 := hb.1
        norm_num at h1
        exact h1
      · have h2 := hb.2
        norm_num at h2
        exact h2
    · exact pyRound_two_mul_den _
    · exact pyChoice_mem g hg _ _ (by decide)
    · exact pyChoice_mem g hg _ _ (by decide)
    · exact ⟨bi.2, snd_mem_of_mem_enumFrom bi _ _ hbi, rfl⟩

/-- Concrete instantiation of `generate_mock_keywords_correct`: the store
drawn by the lower-end random source has 160 records. -/
theorem generate_mock_keywords_correct_witness :
    (generate_mock_keywords loGen).length = 160 :=
  (generate_mock_keywords_correct loGen loGen_valid).1

/-- C8: the seasonal trend series always has exactly 12 entries whose
months are Jan..Dec in fixed calendar order and whose volumes lie in
`[70, 130]`. -/
theorem seasonal_data_correct :
    ∀ (g : RandGen), g.Valid → ∀ t : Nat,
    ((generate_seasonal_data g t).map (fun e => e.month) = months) ∧
    (generate_seasonal_data g t).length = 12 ∧
    (∀ e ∈ generate_seasonal_data g t, 70 ≤ e.volume ∧ e.volume ≤ 130) := by
  intro g hg t
  refine ⟨?_, ?_, ?_⟩
  · rw [generate_seasonal_data, List.map_map]
    rw [show ((fun e : SeasonalEntry => e.month) ∘ (fun mi : Nat × String =>
        ({ month := mi.2, volume := g.randint (t + mi.1) 70 130 } : SeasonalEntry))) =
        (Prod.snd : Nat × String → String) from rfl]
    rw [List.enum_eq_enumFrom, List.enumFrom_map_snd]
  · rw [generate_seasonal_data, List.length_map, List.enum_eq_enumFrom,
      List.enumFrom_length]
    rfl
  · intro e he
    simp only [generate_seasonal_data, List.mem_map] at he
    obtain ⟨mi, hmi, rfl⟩ := he
    exact hg.1 _ 70 130 (by norm_num)

/-- Concrete instantiation of `seasonal_data_correct` at the lower-end
random source. -/
theorem seasonal_data_correct_witness :
    (generate_seasonal_data loGen 0).map (fun e => e.month) = months ∧
    (generate_seasonal_data loGen 0).length = 12 :=
  ⟨(seasonal_data_correct loGen loGen_valid 0).1,
   (seasonal_data_correct loGen loGen_valid 0).2.1⟩

/-- C9: the SERP feature sample always has between 2 and 5 elements, no
duplicates, and draws only from the fixed 7-item feature set. -/
theorem serp_features_correct :
    ∀ (g : RandGen), g.Valid → ∀ t : Nat,
    (2 ≤ (get_serp_features g t).length ∧ (get_serp_features g t).length ≤ 5) ∧
    (get_serp_features g t).Nodup ∧
    (∀ x ∈ get_serp_features g t, x ∈ features) := by
  intro g hg t
  have hk := hg.1 t 2 5 (by norm_num)
  have hk7 : g.randint t 2 5 ≤ features.length := by
    have h7 : features.length = 7 := rfl
    omega
  have hnd : features.Nodup := by decide
  obtain ⟨hmem, hnodup⟩ :=
    pySample_mem_nodup g hg (g.randint t 2 5) (t + 1) features hk7 hnd
  refine ⟨?_, hnodup, hmem⟩
  have hlen : (get_serp_features g t).length = g.randint t 2 5 :=
    pySample_length g _ _ _
  omega

/-- Concrete instantiation of `serp_features_correct` at the lower-end
random source. -/
theorem serp_features_correct_witness :
    2 ≤ (get_serp_features loGen 0).length ∧
      (get_serp_features loGen 0).length ≤ 5 :=
  (serp_features_correct loGen loGen_valid 0).1

/-- C5: every related keyword returned by the analysis is a store record
containing some whitespace token of the input (case-sensitively, original
casing) and differing from the input; the sequence is sorted by
`search_volume` descending and has at most 10 elements. -/
theorem related_keywords_correct :
    ∀ (db : List KeywordRecord) (keyword : String),
    (∀ r ∈ get_related_keywords db keyword,
      r ∈ db ∧ (∃ w ∈ pySplitWs keyword, strIn w r.keyword = true) ∧
        r.keyword ≠ keyword) ∧
    List.Pairwise (fun a b => b.search_volume ≤ a.search_volume)
      (get_related_keywords db keyword) ∧
    (get_related_keywords db keyword).length ≤ 10 := by
  intro db keyword
  refine ⟨?_, ?_, ?_⟩
  · intro r hr
    have h2 := (sortDescBy_perm (fun x : KeywordRecord => x.search_volume)
      _).mem_iff.mp (List.mem_of_mem_take hr)
    have h3 := List.mem_filter.mp h2
    have h4 := h3.2
    simp only [Bool.and_eq_true, List.any_eq_true, bne_iff_ne] at h4
    exact ⟨h3.1, h4.1, h4.2⟩
  · exact List.Pairwise.sublist (List.take_sublist _ _)
      (sortDescBy_sorted (fun x : KeywordRecord => x.search_volume) _)
  · simp only [get_related_keywords, List.length_take]
    exact Nat.min_le_left _ _

/-- Concrete instantiation of `related_keywords_correct`: the record
"alpha beta" is related to the input "alpha" in the two-record store. -/
theorem related_keywords_correct_witness :
    recAlpha ∈ dbSmall ∧
      (∃ w ∈ pySplitWs ("alpha"), strIn w recAlpha.keyword = true) ∧
      recAlpha.keyword ≠ ("alpha") :=
  (related_keywords_correct dbSmall ("alpha")).1 recAlpha (by decide)

/-- When no store record matches the keyword case-insensitively,
`analyze_keyword` synthesizes the base record from fresh draws. -/
theorem analyze_keyword_find_none (g : RandGen) (db : List KeywordRecord)
    (keyword : String)
    (hnone : ∀ kw ∈ db, pyLower kw.keyword ≠ pyLower keyword) :
    (analyze_keyword g db keyword).record =
      { keyword := keyword
        search_volume := g.randint 0 100 10000
        difficulty := g.randint 1 1 100
        cpc := pyRound 2 (g.randuniform 2 (1/2) 10)
        competition := pyChoice g 3 ["Low", "Medium", "High"]
        trend := pyChoice g 4 ["Rising", "Stable", "Declining"]
        category := "general" } := by
  have hfind : db.find? (fun kw => pyLower kw.keyword == pyLower keyword) = none := by
    rw [List.find?_eq_none]
    intro x hx
    simpa using hnone x hx
  simp only [analyze_keyword, hfind]

/-- C4: for a keyword with no exact case-insensitive store match, analysis
always produces a complete synthesized record: the keyword text unmodified,
category "general", `search_volume` in `[100, 10000]`, `difficulty` in
`[1, 100]`, `cpc` in `[0.5, 10.0]` with two decimals, competition and
trend from their fixed sets; and the synthesis bounds genuinely differ
from the store generation bounds (the store can draw volume 50000 and
cpc 15, the synthesis never exceeds 10000 and 10.0). -/
theorem analyze_unknown_keyword_correct :
    ∀ (g : RandGen) (db : List KeywordRecord) (keyword : String),
    g.Valid →
    (∀ kw ∈ db, pyLower kw.keyword ≠ pyLower keyword) →
    ((analyze_keyword g db keyword).record.keyword = keyword ∧
     (analyze_keyword g db keyword).record.category = ("general") ∧
     (100 ≤ (analyze_keyword g db keyword).record.search_volume ∧
      (analyze_keyword g db keyword).record.search_volume ≤ 10000) ∧
     (1 ≤ (analyze_keyword g db keyword).record.difficulty ∧
      (analyze_keyword g db keyword).record.difficulty ≤ 100) ∧
     (1/2 ≤ (analyze_keyword g db keyword).record.cpc ∧
      (analyze_keyword g db keyword).record.cpc ≤ 10) ∧
     ((analyze_keyword g db keyword).record.cpc * 100).den = 1 ∧
     (analyze_keyword g db keyword).record.competition ∈
       (["Low", "Medium", "High"] : List String) ∧
     (analyze_keyword g db keyword).record.trend ∈
       (["Rising", "Stable", "Declining"] : List String)) ∧
    ((∀ g' : RandGen, g'.Valid →
        (analyze_keyword g' db keyword).record.search_volume ≤ 10000 ∧
        (analyze_keyword g' db keyword).record.cpc ≤ 10) ∧
     (∃ g' : RandGen, g'.Valid ∧ ∃ r ∈ generate_mock_keywords g',
        10000 < r.search_volume ∧ 10 < r.cpc)) := by
  intro g db keyword hg hnone
  have hcpc : ∀ g' : RandGen, g'.Valid →
      1/2 ≤ pyRound 2 (g'.randuniform 2 (1/2) 10) ∧
        pyRound 2 (g'.randuniform 2 (1/2) 10) ≤ 10 := by
    intro g' hg'
    have hu := hg'.2.1 2 (1/2) 10 (by norm_num)
    have hb := pyRound_bounds 2 (g'.randuniform 2 (1/2) 10) 50 1000
      (by push_cast; nlinarith [hu.1]) (by push_cast; nlinarith [hu.2])
    constructor
    · have h1 := hb.1
      norm_num at h1
      exact h1
    · have h2 := hb.2
      norm_num at h2
      exact h2
  constructor
  · rw [analyze_keyword_find_none g db keyword hnone]
    refine ⟨rfl, rfl, hg.1 0 100 10000 (by norm_num), hg.1 1 1 100 (by norm_num),
      hcpc g hg, pyRound_two_mul_den _, ?_, ?_⟩
    · exact pyChoice_mem g hg 3 _ (by decide)
    · exact pyChoice_mem g hg 4 _ (by decide)
  constructor
  · intro g' hg'
    rw [analyze_keyword_find_none g' db keyword hnone]
    exact ⟨(hg'.1 0 100 10000 (by norm_num)).2, (hcpc g' hg').2⟩
  · refine ⟨hiGen, hiGen_valid,
      mkMockRecord hiGen 0 ("digital marketing") ("digital marketing tools"), ?_, ?_, ?_⟩
    · rw [generate_mock_keywords, List.mem_flatMap]
      refine ⟨(0, ("digital marketing")), by decide, ?_⟩
      rw [List.mem_map]
      exact ⟨(0, ("digital marketing tools")), by decide, rfl⟩
    · show 10000 < hiGen.randint 0 100 50000
      norm_num [hiGen]
    · show (10 : Rat) < pyRound 2 (hiGen.randuniform 2 (1/2) 15)
      norm_num [hiGen, pyRound, roundHalfEven]

/-- Concrete instantiation of `analyze_unknown_keyword_correct`: analyzing
"zzz" against the two-record store with the lower-end random source. -/
theorem analyze_unknown_keyword_correct_witness :
    (analyze_keyword loGen dbSmall ("zzz")).record.keyword = ("zzz") ∧
    (analyze_keyword loGen dbSmall ("zzz")).record.category = ("general") := by
  have h := analyze_unknown_keyword_correct loGen dbSmall ("zzz")
    loGen_valid (by decide)
  exact ⟨h.1.1, h.1.2.1⟩

/-- C7: neither operation mutates the shared store: each state-passing
method returns the store unchanged, and the record synthesized for an
unknown keyword is not in the store after the call. -/
theorem no_store_mutation :
    ∀ (s : ResearcherState) (g : RandGen) (seed keyword : String) (limit : Nat),
    ((search_keywords_st seed limit s).2 = s) ∧
    ((analyze_keyword_st g keyword s).2 = s) ∧
    ((∀ kw ∈ s.keyword_database, pyLower kw.keyword ≠ pyLower keyword) →
      (analyze_keyword_st g keyword s).1.record ∉
        (analyze_keyword_st g keyword s).2.keyword_database) := by
  intro s g seed keyword limit
  refine ⟨rfl, rfl, ?_⟩
  intro hnone hmem
  have hk : (analyze_keyword_st g keyword s).1.record.keyword = keyword := by
    show (analyze_keyword g s.keyword_database keyword).record.keyword = keyword
    rw [analyze_keyword_find_none g s.keyword_database keyword hnone]
  have := hnone _ hmem
  rw [hk] at this
  exact this rfl

/-- Concrete instantiation of `no_store_mutation`: the store survives a
search, and the record synthesized for "zzz" is not inserted. -/
theorem no_store_mutation_witness :
    (search_keywords_st ("a") 5 { keyword_database := dbSmall }).2 =
      { keyword_database := dbSmall } ∧
    (analyze_keyword_st loGen ("zzz") { keyword_database := dbSmall }).1.record ∉
      (analyze_keyword_st loGen ("zzz")
        { keyword_database := dbSmall }).2.keyword_database := by
  have h := no_store_mutation { keyword_database := dbSmall } loGen ("a") ("zzz") 5
  exact ⟨h.1, h.2.2 (by decide)⟩

/-- C10: the `POST /search` handler always calls `search_keywords` with
the default limit 50, so it never returns more than 50 records, even
though a 160-record store with the empty seed matches all 160. -/
theorem search_route_limit_correct :
    ∀ (db : List KeywordRecord) (body_seed : Option String),
    (search_keywords_route db body_seed =
      search_keywords db (body_seed.getD ("")) 50) ∧
    (search_keywords_route db body_seed).length ≤ 50 ∧
    (db.length = 160 → (search_keywords_route db (some (""))).length = 50) := by
  intro db body_seed
  refine ⟨rfl, ?_, ?_⟩
  · exact search_keywords_length_le db (body_seed.getD ("")) 50
  · intro h160
    have h := search_keywords_empty_seed db 50 h160
    norm_num at h
    exact h

/-- Concrete instantiation of `search_route_limit_correct`: the route on
the 160-record store with an empty body seed returns exactly 50 records. -/
theorem search_route_limit_correct_witness :
    (search_keywords_route dbBig (some (""))).length = 50 :=
  (search_route_limit_correct dbBig (some (""))).2.2 (by simp [dbBig])
